import Mathlib

/-!
Verification development for the korasi remote-session and file-synchronization
engine.  The definitions below are a shallow embedding of `src/util.rs`
(`calc_prefix`, `biject_paths`) and `src/ssh.rs` (`Session::connect`,
`Session::exec`, `Session::upload`).  Paths are modelled as lists of
characters (`Str`), matching the byte/char-level string operations the Rust
code performs (`str::strip_prefix`, `Chars::next`, `PathBuf::join`).
Fallible calls return `Except`/`Option`; a Rust `unwrap`/`expect` that fails
is modelled as a distinguished "panicked" outcome.
-/

set_option maxRecDepth 10000

/-- Paths as character lists, mirroring the `&str` view the source uses. -/
abbrev Str := List Char

/-- Rust `str::strip_prefix`: `some` of the remainder when the first argument
is a prefix of the second, `none` otherwise. -/
def stripPref : Str → Str → Option Str
  | [], s => some s
  | _ :: _, [] => none
  | p :: ps, c :: cs => if p = c then stripPref ps cs else none

/-- Unix `PathBuf::push` semantics as used by `PathBuf::from(dst).join(rest)`
in `biject_paths`: an absolute `rest` replaces `dst`; otherwise a `/`
separator is inserted unless `dst` is empty or already ends in `/`. -/
def pathJoin (dst rest : Str) : Str :=
  if rest.head? = some '/' then rest
  else if dst = [] then rest
  else if dst.getLast? = some '/' then dst ++ rest
  else dst ++ '/' :: rest

/-- Rust `Path::parent` for the canonicalized absolute paths `upload` feeds to
`calc_prefix`: `none` at the filesystem root, otherwise the path with its
last component removed (keeping the root `/` for depth-one paths). -/
def parentPath (p : Str) : Option Str :=
  if p = ['/'] then none
  else
    let q := (p.reverse.dropWhile (fun c => ¬(c = '/'))).reverse
    if q = ['/'] then some q else some q.dropLast

/-- `calc_prefix` from `src/util.rs`: `pth.parent().unwrap_or(Path::new(""))`
(the surrounding `io::Result` is always `Ok`). -/
def calcPrefix (p : Str) : Str := (parentPath p).getD []

/-- The per-entry path transformation inside `biject_paths` in `src/util.rs`:
strip `prefix` from the entry path (`unwrap` modelled as `none` on failure),
drop one leading character (`rel_pth.next()`), and join the remainder onto
`dst_folder`. -/
def mapEntry (pfx dst entry : Str) : Option Str :=
  (stripPref pfx entry).map fun rel => pathJoin dst rel.tail

theorem stripPref_append (p r : Str) : stripPref p (p ++ r) = some r := by
  induction p with
  | nil => rfl
  | cons a ps ih => simp [stripPref, ih]

/-! ## Directory walk and `biject_paths` (src/util.rs lines 201-231) -/

/-- An error yielded by the `ignore::Walk` iterator for one entry. -/
inductive WalkErr where
  | ioErr
deriving DecidableEq

/-- The filesystem metadata of a walked entry (`entry.metadata()`). -/
structure FileAttr where
  is_dir : Bool
deriving DecidableEq

/-- One `Ok` entry yielded by the walker: its path and the result of the
metadata lookup (`none` when `entry.metadata()` returned an error). -/
structure WalkEntry where
  path : Str
  metadata : Option FileAttr
deriving DecidableEq

/-- The `is_dir` computation in `biject_paths`: a metadata error makes the
entry count as a non-directory. -/
def entryIsDir (e : WalkEntry) : Bool :=
  match e.metadata with
  | some m => m.is_dir
  | none => false

/-- One `Ok` arm of the `biject_paths` map: the triple
`(local path, transformed remote path, is_dir)`; `none` models the panic of
`strip_prefix(prefix).unwrap()` when the prefix does not match. -/
def bijectEntry (pfx dst : Str) (ent : WalkEntry) : Option (Str × Str × Bool) :=
  (mapEntry pfx dst ent.path).map fun t => (ent.path, t, entryIsDir ent)

/-- `biject_paths` over a given walker output: each walker error is passed
through, each entry is transformed; `none` models a panic inside the eager
`collect`. -/
def bijectPaths (pfx dst : Str) (walk : List (Except WalkErr WalkEntry)) :
    Option (List (Except WalkErr (Str × Str × Bool))) :=
  walk.mapM fun r =>
    match r with
    | .error e => some (.error e)
    | .ok ent => (bijectEntry pfx dst ent).map .ok

/-! ## `Session::upload` (src/ssh.rs lines 172-240) -/

/-- The error kinds an SFTP request can report. -/
inductive SftpErrKind where
  | noSuchFile
  | permissionDenied
  | failure
deriving DecidableEq

/-- Result of `open_sftp_session` (src/ssh.rs lines 160-165): the two
`unwrap`s panic, `SftpSession::new` errors propagate through `?`. -/
inductive SftpOpenRes where
  | opened
  | openPanicked
  | openFailed
deriving DecidableEq

/-- Observable actions of one `upload` run: remote requests issued and log
lines emitted, in order. -/
inductive UEvent where
  | mkdirReq (p : Str)
  | openReq (p : Str)
  | writeReq (p : Str) (content : List Nat)
  | syncReq (p : Str)
  | shutdownReq (p : Str)
  | sftpClose
  | logWarnOpenFailed (p : Str)
  | logErrorWalk
  | logErrorMetadata
deriving DecidableEq

/-- How a session-level call terminates: an `Ok`, an `anyhow` error, or a
process-aborting panic (`unwrap`/`expect`). -/
inductive Outcome where
  | ok
  | errored
  | panicked
deriving DecidableEq

/-- The environment `upload` runs against: local filesystem and remote SFTP
responses, as response functions keyed by path. -/
structure Env where
  canonicalizeLocal : Str → Option Str
  sftpOpen : SftpOpenRes
  metadataRes : Str → Except SftpErrKind FileAttr
  canonicalizeRemote : Str → Option Str
  createDir : Str → Except SftpErrKind Unit
  openFile : Str → Except SftpErrKind Unit
  readLocal : Str → Option (List Nat)
  writeRemote : Str → List Nat → Except SftpErrKind Unit
  syncRes : Str → Except SftpErrKind Unit
  shutdownRes : Str → Except SftpErrKind Unit
  closeRes : Except SftpErrKind Unit
  walk : Str → List (Except WalkErr WalkEntry)

/-- The default `"."` argument (`src.unwrap_or(".".into())`). -/
def dotPath : Str := ['.']

/-- The body of `upload`'s per-entry loop (src/ssh.rs lines 207-234).
First component: `some ()` when the loop continues past this entry, `none`
when an `unwrap` panics (local file open/read, remote write, shutdown).
Second component: the actions performed for this entry. -/
def processEntry (env : Env) (r : Except WalkErr (Str × Str × Bool)) :
    Option Unit × List UEvent :=
  match r with
  | .error _ => (some (), [.logErrorWalk])
  | .ok (localPth, combined, isDir) =>
    if isDir then
      -- `let _ = sftp.create_dir(...).await;` : result discarded, nothing logged
      let _r := env.createDir combined
      (some (), [.mkdirReq combined])
    else
      match env.openFile combined with
      | .error _ => (some (), [.openReq combined, .logWarnOpenFailed combined])
      | .ok _ =>
        match env.readLocal localPth with
        | none => (none, [.openReq combined])
        | some buf =>
          match env.writeRemote combined buf with
          | .error _ => (none, [.openReq combined, .writeReq combined buf])
          | .ok _ =>
            -- `let _ = remote_file.sync_all().await;` : result discarded
            let _s := env.syncRes combined
            match env.shutdownRes combined with
            | .error _ =>
                (none, [.openReq combined, .writeReq combined buf,
                        .syncReq combined, .shutdownReq combined])
            | .ok _ =>
                (some (), [.openReq combined, .writeReq combined buf,
                           .syncReq combined, .shutdownReq combined])

/-- The `for result in biject_paths(...)` loop: entries processed in order,
stopping only when an entry panics. -/
def processEntries (env : Env) :
    List (Except WalkErr (Str × Str × Bool)) → Option Unit × List UEvent
  | [] => (some (), [])
  | e :: rest =>
    match processEntry env e with
    | (none, tr) => (none, tr)
    | (some _, tr) =>
      let res := processEntries env rest
      (res.fst, tr ++ res.snd)

/-- `Session::upload` in full: canonicalize the source (bail on failure),
open the SFTP sub-channel, check a supplied destination's metadata
(any lookup error logs and returns `Ok`, a non-directory bails), compute the
prefix, canonicalize the destination remotely (`expect`), run the
`biject_paths` loop, and close the channel. -/
def upload (env : Env) (src dst : Option Str) : Outcome × List UEvent :=
  match env.canonicalizeLocal (src.getD dotPath) with
  | none => (.errored, [])
  | some srcPath =>
    match env.sftpOpen with
    | .openPanicked => (.panicked, [])
    | .openFailed => (.errored, [])
    | .opened =>
      let dstCheck : Option (Outcome × List UEvent) :=
        match dst with
        | none => none
        | some d =>
          match env.metadataRes d with
          | .ok attr => if attr.is_dir then none else some (.errored, [])
          | .error _ => some (.ok, [.logErrorMetadata])
      match dstCheck with
      | some res => res
      | none =>
        let pfx := calcPrefix srcPath
        match env.canonicalizeRemote (dst.getD dotPath) with
        | none => (.panicked, [])
        | some dstAbs =>
          match bijectPaths pfx dstAbs (env.walk srcPath) with
          | none => (.panicked, [])
          | some entries =>
            match processEntries env entries with
            | (none, tr) => (.panicked, tr)
            | (some _, tr) =>
              match env.closeRes with
              | .error _ => (.errored, tr ++ [.sftpClose])
              | .ok _ => (.ok, tr ++ [.sftpClose])

/-- Log events among the upload actions. -/
def isLogEvent : UEvent → Bool
  | .logWarnOpenFailed _ => true
  | .logErrorWalk => true
  | .logErrorMetadata => true
  | _ => false

/-- The destination check passes: no destination given, or the remote
metadata lookup reports a directory. -/
def dstOk (env : Env) : Option Str → Prop
  | none => True
  | some d => ∃ a, env.metadataRes d = .ok a ∧ a.is_dir = true

/-- Concatenated per-entry action traces. -/
def flatTraces (env : Env) : List (Except WalkErr (Str × Str × Bool)) → List UEvent
  | [] => []
  | e :: rest => (processEntry env e).snd ++ flatTraces env rest

/-! ## `Session::exec` (src/ssh.rs lines 91-158) -/

/-- A result of `stdin.read(&mut buf)`: `got bs` is `Ok(n)` with the bytes
read (`[]` is `Ok(0)`, local EOF), `ioErr` is `Err(e)`. -/
inductive StdinRes where
  | got (bs : List Nat)
  | ioErr
deriving DecidableEq

/-- A message delivered by `channel.wait()`: the closed variant set the event
loop matches on (other variants fall into the wildcard arm). -/
inductive ChanMsg where
  | data (d : List Nat)
  | extData (d : List Nat)
  | exitStatus (c : Nat)
  | other
deriving DecidableEq

/-- One readiness event of the `tokio::select!` loop: a local stdin read
completing, or a channel message arriving. -/
inductive EvEvent where
  | stdinRead (r : StdinRes)
  | chan (m : ChanMsg)
deriving DecidableEq

/-- The mutable state of the event loop: the `stdin_closed` flag, the bytes
written so far to local stdout and stderr, the bytes forwarded to the remote
via `channel.data`, and the number of `channel.eof()` calls. -/
structure LoopState where
  stdinClosed : Bool
  outB : List Nat
  errB : List Nat
  sent : List Nat
  eofs : Nat
deriving DecidableEq

def initLoop : LoopState := ⟨false, [], [], [], 0⟩

/-- How the event loop ends: `break` at an `ExitStatus` message, an early
`return Err` on a stdin read error, or running out of events (the real loop
would block). -/
inductive ExecStop where
  | exited (code : Nat) (st : LoopState)
  | ioError (st : LoopState)
  | hung (st : LoopState)
deriving DecidableEq

/-- The `loop { tokio::select! { ... } }` of `Session::exec`, driven by a
schedule of readiness events.  A stdin event while `stdin_closed` is skipped:
the `if !stdin_closed` guard disables that select branch, so it can no longer
fire. -/
def runLoop : LoopState → List EvEvent → ExecStop
  | st, [] => .hung st
  | st, .stdinRead r :: rest =>
    if st.stdinClosed then runLoop st rest
    else
      match r with
      | .ioErr => .ioError st
      | .got [] => runLoop { st with stdinClosed := true, eofs := st.eofs + 1 } rest
      | .got (b :: bs) => runLoop { st with sent := st.sent ++ b :: bs } rest
  | st, .chan m :: rest =>
    match m with
    | .data d => runLoop { st with outB := st.outB ++ d } rest
    | .extData d => runLoop { st with errB := st.errB ++ d } rest
    | .other => runLoop st rest
    | .exitStatus c =>
      if st.stdinClosed then .exited c st
      else .exited c { st with eofs := st.eofs + 1 }

/-- Requests `exec` sends on the channel before the event loop. -/
inductive ExecAction where
  | ptyReq
  | execReq
deriving DecidableEq

/-- How `exec` returns: `Ok(exit_status)`, a propagated error, or a schedule
that never reached an exit status (the real loop would still be waiting). -/
inductive ExecOutcome where
  | ok (code : Nat)
  | errored
  | hung
deriving DecidableEq

/-- The environment of one `exec` call and the channel/stdin schedule. -/
structure ExecEnv where
  termSize : Except Unit (Nat × Nat)
  ptyResult : Except Unit Unit
  execResult : Except Unit Unit
  events : List EvEvent

/-- The full result of `exec`: its return value, the channel requests it
issued, and the final local-descriptor state. -/
structure ExecRes where
  outcome : ExecOutcome
  actions : List ExecAction
  io : LoopState
deriving DecidableEq

/-- `Session::exec`: read the terminal size (`?`), request a PTY (`?` — an
error aborts before the command is sent), send the command (`?`), then run
the event loop. -/
def exec (env : ExecEnv) : ExecRes :=
  match env.termSize with
  | .error _ => ⟨.errored, [], initLoop⟩
  | .ok _ =>
    match env.ptyResult with
    | .error _ => ⟨.errored, [.ptyReq], initLoop⟩
    | .ok _ =>
      match env.execResult with
      | .error _ => ⟨.errored, [.ptyReq, .execReq], initLoop⟩
      | .ok _ =>
        match runLoop initLoop env.events with
        | .exited c st => ⟨.ok c, [.ptyReq, .execReq], st⟩
        | .ioError st => ⟨.errored, [.ptyReq, .execReq], st⟩
        | .hung st => ⟨.hung, [.ptyReq, .execReq], st⟩

/-- Channel `Data` payloads of a schedule, concatenated in order. -/
def dataBytes : List EvEvent → List Nat
  | [] => []
  | .chan (.data d) :: r => d ++ dataBytes r
  | _ :: r => dataBytes r

/-- Channel `ExtendedData` payloads of a schedule, concatenated in order. -/
def extBytes : List EvEvent → List Nat
  | [] => []
  | .chan (.extData d) :: r => d ++ extBytes r
  | _ :: r => extBytes r

/-- Stdin payload bytes of a schedule, concatenated in order. -/
def stdinBytes : List EvEvent → List Nat
  | [] => []
  | .stdinRead (.got (b :: bs)) :: r => (b :: bs) ++ stdinBytes r
  | _ :: r => stdinBytes r

def isExitEv : EvEvent → Bool
  | .chan (.exitStatus _) => true
  | _ => false

def isStdinErrEv : EvEvent → Bool
  | .stdinRead .ioErr => true
  | _ => false

def isStdinEofEv : EvEvent → Bool
  | .stdinRead (.got []) => true
  | _ => false

/-! ## `Session::connect` (src/ssh.rs lines 68-88) -/

/-- The environment of one `connect` call: the TCP/SSH connection attempt,
the local key load, and the public-key authentication exchange (`Ok b`: the
protocol exchange succeeded and the remote accepted iff `b`). -/
structure ConnectEnv where
  tcpConnect : Except Unit Unit
  loadKey : Except Unit Unit
  authenticate : Except Unit Bool

/-- `Session::connect`: `russh::client::connect(...).expect(...)` panics on a
transport failure, `load_secret_key(...).unwrap()` panics on a key failure,
`authenticate_publickey(...).await?` propagates protocol errors — and its
`Ok(bool)` acceptance flag is discarded, so a rejected key still yields
`Ok(Session)`. -/
def connect (env : ConnectEnv) : Outcome :=
  match env.tcpConnect with
  | .error _ => .panicked
  | .ok _ =>
    match env.loadKey with
    | .error _ => .panicked
    | .ok _ =>
      match env.authenticate with
      | .error _ => .errored
      | .ok _accepted => .ok

/-! ## Theorems -/

/-- Claim C1.  The spec says the mapping sends an entry at `S/a/b` to
`D/<basename(S)>/a/b` for every source root `S`.  The code violates this for
every source root directly under the filesystem root: there
`calc_prefix` returns `/`, the stripped remainder starts with the basename
rather than a separator, and the unconditional `rel_pth.next()` deletes the
first character of the basename.  At `S = /proj`, `D = /home/user`, the entry
`/proj/a.txt` is mapped to `/home/user/roj/a.txt` instead of
`/home/user/proj/a.txt`. -/
theorem c1_depth_one_source_root_mangled :
    calcPrefix ("/proj".data) = "/".data ∧
    mapEntry (calcPrefix ("/proj".data)) ("/home/user".data) ("/proj/a.txt".data)
      = some ("/home/user/roj/a.txt".data) ∧
    "/home/user/roj/a.txt".data ≠ "/home/user/proj/a.txt".data := by
  decide

/-- Claim C10.  An entry whose metadata lookup failed gets `is_dir = false`
from `biject_paths`, and `upload` therefore takes the file branch for it:
the first action performed for the entry is the remote file open. -/
theorem c10_metadata_error_treated_as_file (env : Env) (p d : Str)
    (ent : WalkEntry) (rel : Str)
    (hm : ent.metadata = none) (hs : stripPref p ent.path = some rel) :
    bijectEntry p d ent = some (ent.path, pathJoin d rel.tail, false) ∧
    ((processEntry env (.ok (ent.path, pathJoin d rel.tail, false))).snd).head?
      = some (.openReq (pathJoin d rel.tail)) := by
  constructor
  · simp [bijectEntry, mapEntry, hs, entryIsDir, hm]
  · cases ho : env.openFile (pathJoin d rel.tail) with
    | error e => simp [processEntry, ho]
    | ok u =>
      cases hr : env.readLocal ent.path with
      | none => simp [processEntry, ho, hr]
      | some buf =>
        cases hw : env.writeRemote (pathJoin d rel.tail) buf with
        | error e => simp [processEntry, ho, hr, hw]
        | ok u2 =>
          cases hsd : env.shutdownRes (pathJoin d rel.tail) with
          | error e => simp [processEntry, ho, hr, hw, hsd]
          | ok u3 => simp [processEntry, ho, hr, hw, hsd]

/-- A witnessing upload environment with everything succeeding. -/
def envBase : Env where
  canonicalizeLocal := fun _ => some ("/h/s".data)
  sftpOpen := .opened
  metadataRes := fun _ => .ok ⟨true⟩
  canonicalizeRemote := fun _ => some ("/r".data)
  createDir := fun _ => .ok ()
  openFile := fun _ => .ok ()
  readLocal := fun _ => some [7]
  writeRemote := fun _ _ => .ok ()
  syncRes := fun _ => .ok ()
  shutdownRes := fun _ => .ok ()
  closeRes := .ok ()
  walk := fun _ => []

theorem c10_witness :
    bijectEntry ("/h".data) ("/d".data) ⟨"/h/s/f".data, none⟩
      = some ("/h/s/f".data, pathJoin ("/d".data) (List.tail ("/s/f".data)), false) ∧
    ((processEntry envBase
        (.ok ("/h/s/f".data, pathJoin ("/d".data) (List.tail ("/s/f".data)), false))).snd).head?
      = some (.openReq (pathJoin ("/d".data) (List.tail ("/s/f".data)))) :=
  c10_metadata_error_treated_as_file envBase ("/h".data) ("/d".data)
    ⟨"/h/s/f".data, none⟩ ("/s/f".data) rfl (by decide)

/-- An entry path lying under the source root `S`, as the walker yields them:
either the root itself, or `S` followed by a separator and a nonempty
relative path with no trailing separator. -/
def entryUnder (S s : Str) : Prop :=
  s = S ∨ ∃ w, w ≠ [] ∧ w.getLast? ≠ some '/' ∧ s = S ++ '/' :: w

theorem getLast?_cons_of_ne {α : Type} (a : α) (l : List α) (h : l ≠ []) :
    (a :: l).getLast? = l.getLast? := by
  cases l with
  | nil => exact absurd rfl h
  | cons b t => exact List.getLast?_cons_cons

theorem getLast?_append_single {α : Type} (l : List α) (a : α) :
    (l ++ [a]).getLast? = some a := by
  induction l with
  | nil => rfl
  | cons b t ih => rw [List.cons_append, getLast?_cons_of_ne _ _ (by simp), ih]

theorem pathJoin_inj_head (D : Str) (a : Char) (y1 y2 : Str)
    (h : pathJoin D (a :: y1) = pathJoin D (a :: y2)) : y1 = y2 := by
  by_cases ha : a = '/'
  · subst ha
    simp only [pathJoin, List.head?_cons, if_pos rfl] at h
    exact (List.cons.inj h).2
  · have hc1 : ¬((a :: y1).head? = some '/') := by simp [ha]
    have hc2 : ¬((a :: y2).head? = some '/') := by simp [ha]
    simp only [pathJoin, if_neg hc1, if_neg hc2] at h
    by_cases hD0 : D = []
    · rw [if_pos hD0, if_pos hD0] at h
      exact (List.cons.inj h).2
    · rw [if_neg hD0, if_neg hD0] at h
      by_cases hDl : D.getLast? = some '/'
      · rw [if_pos hDl, if_pos hDl] at h
        exact (List.cons.inj (List.append_cancel_left h)).2
      · rw [if_neg hDl, if_neg hDl] at h
        exact (List.cons.inj (List.cons.inj (List.append_cancel_left h)).2).2

theorem pathJoin_root_entry_ne (D w : Str) (hw : w ≠ [])
    (hlast : w.getLast? ≠ some '/') :
    pathJoin D [] ≠ pathJoin D ('/' :: w) := by
  have h2 : pathJoin D ('/' :: w) = '/' :: w := by
    simp [pathJoin]
  have hlast2 : ('/' :: w).getLast? = w.getLast? := getLast?_cons_of_ne _ _ hw
  rw [h2]
  by_cases hD0 : D = []
  · simp [pathJoin, hD0]
  · by_cases hDl : D.getLast? = some '/'
    · have h1 : pathJoin D [] = D := by
        simp [pathJoin, hD0, hDl]
      rw [h1]
      intro hcontra
      rw [hcontra, hlast2] at hDl
      exact hlast hDl
    · have h1 : pathJoin D [] = D ++ ['/'] := by
        simp [pathJoin, hD0, hDl]
      rw [h1]
      intro hcontra
      have h3 : (D ++ ['/']).getLast? = some '/' := getLast?_append_single D '/'
      rw [hcontra, hlast2] at h3
      exact hlast h3

theorem pathJoin_tail_inj (D m' u1 u2 : Str)
    (g1 : u1 = [] ∨ ∃ w, w ≠ [] ∧ w.getLast? ≠ some '/' ∧ u1 = '/' :: w)
    (g2 : u2 = [] ∨ ∃ w, w ≠ [] ∧ w.getLast? ≠ some '/' ∧ u2 = '/' :: w)
    (h : pathJoin D (m' ++ u1) = pathJoin D (m' ++ u2)) : u1 = u2 := by
  cases m' with
  | cons c' m'' =>
    have := pathJoin_inj_head D c' (m'' ++ u1) (m'' ++ u2) (by simpa using h)
    exact List.append_cancel_left this
  | nil =>
    simp only [List.nil_append] at h
    rcases g1 with rfl | ⟨w1, hw1, hl1, rfl⟩
    · rcases g2 with rfl | ⟨w2, hw2, hl2, rfl⟩
      · rfl
      · exact absurd h (pathJoin_root_entry_ne D w2 hw2 hl2)
    · rcases g2 with rfl | ⟨w2, hw2, hl2, rfl⟩
      · exact absurd h.symm (pathJoin_root_entry_ne D w1 hw1 hl1)
      · have := pathJoin_inj_head D '/' w1 w2 h
        rw [this]

theorem mapEntry_under (p D : Str) (c : Char) (m' u : Str) :
    mapEntry p D ((p ++ c :: m') ++ u) = some (pathJoin D (m' ++ u)) := by
  have h : (p ++ c :: m') ++ u = p ++ (c :: (m' ++ u)) := by simp
  rw [h, mapEntry, stripPref_append]
  rfl

/-- Claim C8.  The per-entry transformation of `biject_paths` is injective on
the entries of one sync pass: with a fixed stripped prefix `p` that is a
proper prefix of the source root `S` and a fixed destination root `D`, two
distinct entry paths under `S` are mapped to distinct remote paths. -/
theorem c8_biject_injective (p D S s1 s2 : Str)
    (hS : ∃ m, m ≠ [] ∧ S = p ++ m)
    (h1 : entryUnder S s1) (h2 : entryUnder S s2) (hne : s1 ≠ s2) :
    mapEntry p D s1 ≠ mapEntry p D s2 := by
  obtain ⟨m, hm, rfl⟩ := hS
  obtain ⟨c, m', rfl⟩ : ∃ c m', m = c :: m' := by
    cases m with
    | nil => exact absurd rfl hm
    | cons a l => exact ⟨a, l, rfl⟩
  have shape : ∀ s, entryUnder (p ++ c :: m') s →
      ∃ u, (u = [] ∨ ∃ w, w ≠ [] ∧ w.getLast? ≠ some '/' ∧ u = '/' :: w) ∧
        s = (p ++ c :: m') ++ u := by
    intro s hs
    rcases hs with rfl | ⟨w, hw1, hw2, rfl⟩
    · exact ⟨[], Or.inl rfl, by simp⟩
    · exact ⟨'/' :: w, Or.inr ⟨w, hw1, hw2, rfl⟩, rfl⟩
  obtain ⟨u1, g1, rfl⟩ := shape s1 h1
  obtain ⟨u2, g2, rfl⟩ := shape s2 h2
  rw [mapEntry_under, mapEntry_under]
  intro h
  have hu : u1 = u2 := pathJoin_tail_inj D m' u1 u2 g1 g2 (Option.some.inj h)
  exact hne (by rw [hu])

theorem c8_witness :
    mapEntry (calcPrefix ("/a/b".data)) ("/d".data) ("/a/b".data)
      ≠ mapEntry (calcPrefix ("/a/b".data)) ("/d".data) ("/a/b/c".data) :=
  c8_biject_injective (calcPrefix ("/a/b".data)) ("/d".data) ("/a/b".data)
    ("/a/b".data) ("/a/b/c".data)
    ⟨"/b".data, by decide, by decide⟩
    (Or.inl rfl)
    (Or.inr ⟨"c".data, by decide, by decide, by decide⟩)
    (by decide)

/-! ## Event-loop accumulation lemmas for `Session::exec` -/

theorem runLoop_open_accum (pre rest : List EvEvent) :
    ∀ o eb s n,
    (∀ ev ∈ pre, isExitEv ev = false) →
    (∀ ev ∈ pre, isStdinErrEv ev = false) →
    (∀ ev ∈ pre, isStdinEofEv ev = false) →
    runLoop ⟨false, o, eb, s, n⟩ (pre ++ rest) =
      runLoop ⟨false, o ++ dataBytes pre, eb ++ extBytes pre,
               s ++ stdinBytes pre, n⟩ rest := by
  induction pre with
  | nil =>
    intro o eb s n _ _ _
    simp [dataBytes, extBytes, stdinBytes]
  | cons ev pre ih =>
    intro o eb s n hx he hf
    have hx' : ∀ x ∈ pre, isExitEv x = false :=
      fun x hm => hx x (List.mem_cons_of_mem _ hm)
    have he' : ∀ x ∈ pre, isStdinErrEv x = false :=
      fun x hm => he x (List.mem_cons_of_mem _ hm)
    have hf' : ∀ x ∈ pre, isStdinEofEv x = false :=
      fun x hm => hf x (List.mem_cons_of_mem _ hm)
    cases ev with
    | stdinRead r =>
      cases r with
      | ioErr =>
        exact absurd (he _ (List.mem_cons_self _ _)) (by simp [isStdinErrEv])
      | got bs =>
        cases bs with
        | nil =>
          exact absurd (hf _ (List.mem_cons_self _ _)) (by simp [isStdinEofEv])
        | cons b bs' =>
          have step : runLoop ⟨false, o, eb, s, n⟩
              ((EvEvent.stdinRead (StdinRes.got (b :: bs')) :: pre) ++ rest) =
              runLoop ⟨false, o, eb, s ++ b :: bs', n⟩ (pre ++ rest) := by
            simp [runLoop]
          rw [step, ih o eb (s ++ b :: bs') n hx' he' hf']
          simp [dataBytes, extBytes, stdinBytes, List.append_assoc]
    | chan m =>
      cases m with
      | data d =>
        have step : runLoop ⟨false, o, eb, s, n⟩
            ((EvEvent.chan (ChanMsg.data d) :: pre) ++ rest) =
            runLoop ⟨false, o ++ d, eb, s, n⟩ (pre ++ rest) := by
          simp [runLoop]
        rw [step, ih (o ++ d) eb s n hx' he' hf']
        simp [dataBytes, extBytes, stdinBytes, List.append_assoc]
      | extData d =>
        have step : runLoop ⟨false, o, eb, s, n⟩
            ((EvEvent.chan (ChanMsg.extData d) :: pre) ++ rest) =
            runLoop ⟨false, o, eb ++ d, s, n⟩ (pre ++ rest) := by
          simp [runLoop]
        rw [step, ih o (eb ++ d) s n hx' he' hf']
        simp [dataBytes, extBytes, stdinBytes, List.append_assoc]
      | other =>
        have step : runLoop ⟨false, o, eb, s, n⟩
            ((EvEvent.chan ChanMsg.other :: pre) ++ rest) =
            runLoop ⟨false, o, eb, s, n⟩ (pre ++ rest) := by
          simp [runLoop]
        rw [step, ih o eb s n hx' he' hf']
        simp [dataBytes, extBytes, stdinBytes]
      | exitStatus c =>
        exact absurd (hx _ (List.mem_cons_self _ _)) (by simp [isExitEv])

theorem runLoop_closed_accum (post rest : List EvEvent) :
    ∀ o eb s n,
    (∀ ev ∈ post, isExitEv ev = false) →
    runLoop ⟨true, o, eb, s, n⟩ (post ++ rest) =
      runLoop ⟨true, o ++ dataBytes post, eb ++ extBytes post, s, n⟩ rest := by
  induction post with
  | nil =>
    intro o eb s n _
    simp [dataBytes, extBytes]
  | cons ev post ih =>
    intro o eb s n hx
    have hx' : ∀ x ∈ post, isExitEv x = false :=
      fun x hm => hx x (List.mem_cons_of_mem _ hm)
    cases ev with
    | stdinRead r =>
      have step : runLoop ⟨true, o, eb, s, n⟩
          ((EvEvent.stdinRead r :: post) ++ rest) =
          runLoop ⟨true, o, eb, s, n⟩ (post ++ rest) := by
        simp [runLoop]
      rw [step, ih o eb s n hx']
      simp [dataBytes, extBytes]
    | chan m =>
      cases m with
      | data d =>
        have step : runLoop ⟨true, o, eb, s, n⟩
            ((EvEvent.chan (ChanMsg.data d) :: post) ++ rest) =
            runLoop ⟨true, o ++ d, eb, s, n⟩ (post ++ rest) := by
          simp [runLoop]
        rw [step, ih (o ++ d) eb s n hx']
        simp [dataBytes, extBytes, List.append_assoc]
      | extData d =>
        have step : runLoop ⟨true, o, eb, s, n⟩
            ((EvEvent.chan (ChanMsg.extData d) :: post) ++ rest) =
            runLoop ⟨true, o, eb ++ d, s, n⟩ (post ++ rest) := by
          simp [runLoop]
        rw [step, ih o (eb ++ d) s n hx']
        simp [dataBytes, extBytes, List.append_assoc]
      | other =>
        have step : runLoop ⟨true, o, eb, s, n⟩
            ((EvEvent.chan ChanMsg.other :: post) ++ rest) =
            runLoop ⟨true, o, eb, s, n⟩ (post ++ rest) := by
          simp [runLoop]
        rw [step, ih o eb s n hx']
        simp [dataBytes, extBytes]
      | exitStatus c =>
        exact absurd (hx _ (List.mem_cons_self _ _)) (by simp [isExitEv])

theorem runLoop_exists_accum (pre : List EvEvent) :
    ∀ (rest : List EvEvent) (st : LoopState),
    (∀ ev ∈ pre, isExitEv ev = false) →
    (∀ ev ∈ pre, isStdinErrEv ev = false) →
    ∃ st', runLoop st (pre ++ rest) = runLoop st' rest ∧
      st'.outB = st.outB ++ dataBytes pre ∧ st'.errB = st.errB ++ extBytes pre := by
  induction pre with
  | nil =>
    intro rest st _ _
    exact ⟨st, by simp, by simp [dataBytes], by simp [extBytes]⟩
  | cons ev pre ih =>
    intro rest st hx he
    have hx' : ∀ x ∈ pre, isExitEv x = false :=
      fun x hm => hx x (List.mem_cons_of_mem _ hm)
    have he' : ∀ x ∈ pre, isStdinErrEv x = false :=
      fun x hm => he x (List.mem_cons_of_mem _ hm)
    cases ev with
    | stdinRead r =>
      cases r with
      | ioErr =>
        exact absurd (he _ (List.mem_cons_self _ _)) (by simp [isStdinErrEv])
      | got bs =>
        cases hcl : st.stdinClosed with
        | true =>
          have step : runLoop st ((EvEvent.stdinRead (StdinRes.got bs) :: pre) ++ rest) =
              runLoop st (pre ++ rest) := by
            simp [runLoop, hcl]
          obtain ⟨st', h1, h2, h3⟩ := ih rest st hx' he'
          exact ⟨st', by rw [step, h1], by simp [h2, dataBytes], by simp [h3, extBytes]⟩
        | false =>
          cases bs with
          | nil =>
            have step : runLoop st ((EvEvent.stdinRead (StdinRes.got []) :: pre) ++ rest) =
                runLoop { st with stdinClosed := true, eofs := st.eofs + 1 }
                  (pre ++ rest) := by
              simp [runLoop, hcl]
            obtain ⟨st', h1, h2, h3⟩ :=
              ih rest { st with stdinClosed := true, eofs := st.eofs + 1 } hx' he'
            exact ⟨st', by rw [step, h1], by simp [h2, dataBytes], by simp [h3, extBytes]⟩
          | cons b bs' =>
            have step : runLoop st
                ((EvEvent.stdinRead (StdinRes.got (b :: bs')) :: pre) ++ rest) =
                runLoop { st with sent := st.sent ++ b :: bs' } (pre ++ rest) := by
              simp [runLoop, hcl]
            obtain ⟨st', h1, h2, h3⟩ :=
              ih rest { st with sent := st.sent ++ b :: bs' } hx' he'
            exact ⟨st', by rw [step, h1], by simp [h2, dataBytes], by simp [h3, extBytes]⟩
    | chan m =>
      cases m with
      | data d =>
        have step : runLoop st ((EvEvent.chan (ChanMsg.data d) :: pre) ++ rest) =
            runLoop { st with outB := st.outB ++ d } (pre ++ rest) := by
          simp [runLoop]
        obtain ⟨st', h1, h2, h3⟩ := ih rest { st with outB := st.outB ++ d } hx' he'
        exact ⟨st', by rw [step, h1],
          by simp [h2, dataBytes, List.append_assoc], by simp [h3, extBytes]⟩
      | extData d =>
        have step : runLoop st ((EvEvent.chan (ChanMsg.extData d) :: pre) ++ rest) =
            runLoop { st with errB := st.errB ++ d } (pre ++ rest) := by
          simp [runLoop]
        obtain ⟨st', h1, h2, h3⟩ := ih rest { st with errB := st.errB ++ d } hx' he'
        exact ⟨st', by rw [step, h1], by simp [h2, dataBytes],
          by simp [h3, extBytes, List.append_assoc]⟩
      | other =>
        have step : runLoop st ((EvEvent.chan ChanMsg.other :: pre) ++ rest) =
            runLoop st (pre ++ rest) := by
          simp [runLoop]
        obtain ⟨st', h1, h2, h3⟩ := ih rest st hx' he'
        exact ⟨st', by rw [step, h1], by simp [h2, dataBytes], by simp [h3, extBytes]⟩
      | exitStatus c =>
        exact absurd (hx _ (List.mem_cons_self _ _)) (by simp [isExitEv])

/-- Claim C2.  If the channel schedule delivers a finite sequence of data,
extended-data and other messages followed by a single exit-status message
(and local stdin never errors), `exec` returns exactly that exit status and
has written every stdout byte and every stderr byte of the schedule to the
local descriptors, in stream order. -/
theorem c2_exec_delivers (env : ExecEnv) (pre : List EvEvent) (c : Nat)
    (sz : Nat × Nat)
    (hev : env.events = pre ++ [.chan (.exitStatus c)])
    (hx : ∀ ev ∈ pre, isExitEv ev = false)
    (he : ∀ ev ∈ pre, isStdinErrEv ev = false)
    (ht : env.termSize = .ok sz)
    (hp : env.ptyResult = .ok ())
    (hq : env.execResult = .ok ()) :
    (exec env).outcome = .ok c ∧
    (exec env).io.outB = dataBytes pre ∧
    (exec env).io.errB = extBytes pre := by
  obtain ⟨st', h1, h2, h3⟩ :=
    runLoop_exists_accum pre [.chan (.exitStatus c)] initLoop hx he
  have hfin : ∃ stf, runLoop st' [.chan (.exitStatus c)] = .exited c stf ∧
      stf.outB = st'.outB ∧ stf.errB = st'.errB := by
    cases hcl : st'.stdinClosed with
    | false => exact ⟨{ st' with eofs := st'.eofs + 1 }, by simp [runLoop, hcl], rfl, rfl⟩
    | true => exact ⟨st', by simp [runLoop, hcl], rfl, rfl⟩
  obtain ⟨stf, h4, h5, h6⟩ := hfin
  have hrun : runLoop initLoop env.events = .exited c stf := by
    rw [hev, h1, h4]
  have h2' : st'.outB = dataBytes pre := by simpa [initLoop] using h2
  have h3' : st'.errB = extBytes pre := by simpa [initLoop] using h3
  refine ⟨?_, ?_, ?_⟩ <;>
    simp [exec, ht, hp, hq, hrun, h5, h6, h2', h3']

/-- A concrete exec schedule: some stdout, an stdin EOF mid-stream, some
stderr, more stdout, then exit status 3. -/
def envC2 : ExecEnv :=
  ⟨.ok (80, 24), .ok (), .ok (),
   [.stdinRead (.got [5]), .chan (.data [104, 105]), .stdinRead (.got []),
    .chan (.extData [33]), .chan (.data [10]), .chan (.exitStatus 3)]⟩

theorem c2_witness :
    (exec envC2).outcome = .ok 3 ∧
    (exec envC2).io.outB =
      dataBytes [.stdinRead (.got [5]), .chan (.data [104, 105]),
        .stdinRead (.got []), .chan (.extData [33]), .chan (.data [10])] ∧
    (exec envC2).io.errB =
      extBytes [.stdinRead (.got [5]), .chan (.data [104, 105]),
        .stdinRead (.got []), .chan (.extData [33]), .chan (.data [10])] :=
  c2_exec_delivers envC2
    [.stdinRead (.got [5]), .chan (.data [104, 105]), .stdinRead (.got []),
     .chan (.extData [33]), .chan (.data [10])] 3 (80, 24)
    rfl (by decide) (by decide) rfl rfl rfl

/-- Claim C3.  When the schedule reads zero bytes from stdin once (no earlier
EOF or stdin error) and the exit-status message arrives only later, the loop
sends exactly one end-of-stream signal, forwards to the remote only the stdin
bytes read before EOF (stdin is never polled again — later stdin readiness,
even an error, is ignored), and still delivers all remote stdout/stderr
arriving after local EOF up to the exit status. -/
theorem c3_eof_once (env : ExecEnv) (pre post : List EvEvent) (c : Nat)
    (sz : Nat × Nat)
    (hev : env.events =
      pre ++ EvEvent.stdinRead (StdinRes.got []) :: (post ++ [.chan (.exitStatus c)]))
    (hx1 : ∀ ev ∈ pre, isExitEv ev = false)
    (he1 : ∀ ev ∈ pre, isStdinErrEv ev = false)
    (hf1 : ∀ ev ∈ pre, isStdinEofEv ev = false)
    (hx2 : ∀ ev ∈ post, isExitEv ev = false)
    (ht : env.termSize = .ok sz)
    (hp : env.ptyResult = .ok ())
    (hq : env.execResult = .ok ()) :
    (exec env).outcome = .ok c ∧
    (exec env).io.eofs = 1 ∧
    (exec env).io.sent = stdinBytes pre ∧
    (exec env).io.outB = dataBytes pre ++ dataBytes post ∧
    (exec env).io.errB = extBytes pre ++ extBytes post := by
  have hA := runLoop_open_accum pre
    (EvEvent.stdinRead (StdinRes.got []) :: (post ++ [.chan (.exitStatus c)]))
    [] [] [] 0 hx1 he1 hf1
  have hstep : runLoop ⟨false, dataBytes pre, extBytes pre, stdinBytes pre, 0⟩
      (EvEvent.stdinRead (StdinRes.got []) :: (post ++ [.chan (.exitStatus c)])) =
      runLoop ⟨true, dataBytes pre, extBytes pre, stdinBytes pre, 1⟩
        (post ++ [.chan (.exitStatus c)]) := by
    simp [runLoop]
  have hB := runLoop_closed_accum post [.chan (.exitStatus c)]
    (dataBytes pre) (extBytes pre) (stdinBytes pre) 1 hx2
  have hexit : runLoop
      ⟨true, dataBytes pre ++ dataBytes post, extBytes pre ++ extBytes post,
       stdinBytes pre, 1⟩ [.chan (.exitStatus c)] =
      .exited c ⟨true, dataBytes pre ++ dataBytes post,
        extBytes pre ++ extBytes post, stdinBytes pre, 1⟩ := by
    simp [runLoop]
  have hrun : runLoop initLoop env.events =
      .exited c ⟨true, dataBytes pre ++ dataBytes post,
        extBytes pre ++ extBytes post, stdinBytes pre, 1⟩ := by
    rw [hev]
    rw [show initLoop = (⟨false, [], [], [], 0⟩ : LoopState) from rfl]
    rw [hA]
    simp only [List.nil_append]
    rw [hstep, hB, hexit]
  refine ⟨?_, ?_, ?_, ?_, ?_⟩ <;> simp [exec, ht, hp, hq, hrun]

/-- A concrete exec schedule for the EOF-ordering property: stdin bytes and
stdout before EOF; after EOF, the remote keeps producing output while later
stdin readiness (including an error) is ignored. -/
def envC3 : ExecEnv :=
  ⟨.ok (80, 24), .ok (), .ok (),
   [.chan (.data [1]), .stdinRead (.got [9]), .stdinRead (.got []),
    .chan (.data [2]), .stdinRead (.got [7]), .stdinRead .ioErr,
    .chan (.extData [4]), .chan (.exitStatus 0)]⟩

theorem c3_witness :
    (exec envC3).outcome = .ok 0 ∧
    (exec envC3).io.eofs = 1 ∧
    (exec envC3).io.sent = stdinBytes [.chan (.data [1]), .stdinRead (.got [9])] ∧
    (exec envC3).io.outB =
      dataBytes [.chan (.data [1]), .stdinRead (.got [9])] ++
        dataBytes [.chan (.data [2]), .stdinRead (.got [7]), .stdinRead .ioErr,
          .chan (.extData [4])] ∧
    (exec envC3).io.errB =
      extBytes [.chan (.data [1]), .stdinRead (.got [9])] ++
        extBytes [.chan (.data [2]), .stdinRead (.got [7]), .stdinRead .ioErr,
          .chan (.extData [4])] :=
  c3_eof_once envC3 [.chan (.data [1]), .stdinRead (.got [9])]
    [.chan (.data [2]), .stdinRead (.got [7]), .stdinRead .ioErr,
     .chan (.extData [4])] 0 (80, 24)
    rfl (by decide) (by decide) (by decide) (by decide) rfl rfl rfl

/-- A PTY negotiation failure after a successful terminal-size read. -/
def envC6 : ExecEnv := ⟨.ok (80, 24), .error (), .ok (), [.chan (.data [1])]⟩

/-- Claim C6 counterexample.  The claim says a PTY request failure is
non-fatal and the command is still sent.  In the code `request_pty(...).await?`
propagates the error: `exec` returns the error and never sends the exec
request. -/
theorem c6_cex :
    exec envC6 = ⟨.errored, [.ptyReq], initLoop⟩ ∧
    ExecAction.execReq ∉ (exec envC6).actions := by
  exact ⟨rfl, by decide⟩

/-- Claim C6, amended.  A PTY negotiation failure is fatal: `exec` returns
the error immediately, having issued only the PTY request — the command is
never sent for execution. -/
theorem c6_amended (env : ExecEnv) (sz : Nat × Nat)
    (h1 : env.termSize = .ok sz) (h2 : env.ptyResult = .error ()) :
    exec env = ⟨.errored, [.ptyReq], initLoop⟩ := by
  simp [exec, h1, h2]

theorem c6_witness : exec envC6 = ⟨.errored, [.ptyReq], initLoop⟩ :=
  c6_amended envC6 (80, 24) rfl rfl

/-- A failing TCP/SSH connection attempt. -/
def envC7t : ConnectEnv := ⟨.error (), .ok (), .ok true⟩

/-- A connection where the remote rejects the supplied key
(`authenticate_publickey` returns `Ok(false)`). -/
def envC7r : ConnectEnv := ⟨.ok (), .ok (), .ok false⟩

/-- Claim C7 counterexample.  The claim says `connect` fails by returning
error values rather than terminating the process.  In the code a transport
failure hits `.expect(...)` and panics; and a remote rejection of the key
(`Ok(false)` from `authenticate_publickey`) is discarded, so `connect`
returns success instead of an auth error. -/
theorem c7_cex : connect envC7t = .panicked ∧ connect envC7r = .ok :=
  ⟨rfl, rfl⟩

/-- Claim C7, amended.  `connect` panics on a transport/connect failure and
on a key-load failure; an authentication protocol error is returned as an
error value; and the remote's accept/reject decision is ignored — `connect`
returns success whenever the authentication exchange itself completes. -/
theorem c7_amended (env : ConnectEnv) :
    (env.tcpConnect = .error () → connect env = .panicked) ∧
    (env.tcpConnect = .ok () → env.loadKey = .error () → connect env = .panicked) ∧
    (env.tcpConnect = .ok () → env.loadKey = .ok () → env.authenticate = .error () →
      connect env = .errored) ∧
    (∀ b, env.tcpConnect = .ok () → env.loadKey = .ok () → env.authenticate = .ok b →
      connect env = .ok) := by
  refine ⟨?_, ?_, ?_, ?_⟩
  · intro h1
    simp [connect, h1]
  · intro h1 h2
    simp [connect, h1, h2]
  · intro h1 h2 h3
    simp [connect, h1, h2, h3]
  · intro b h1 h2 h3
    simp [connect, h1, h2, h3]

theorem c7_witness : connect ⟨.ok (), .ok (), .error ()⟩ = .errored :=
  (c7_amended ⟨.ok (), .ok (), .error ()⟩).2.2.1 rfl rfl rfl

/-! ## Upload theorems -/

theorem processEntries_all_ok (env : Env) :
    ∀ l : List (Except WalkErr (Str × Str × Bool)),
    (∀ e ∈ l, (processEntry env e).fst = some ()) →
    processEntries env l = (some (), flatTraces env l) := by
  intro l
  induction l with
  | nil => intro _; rfl
  | cons e rest ih =>
    intro h
    have he := h e (List.mem_cons_self _ _)
    have ht := ih (fun x hx => h x (List.mem_cons_of_mem _ hx))
    cases hpe : processEntry env e with
    | mk f tr =>
      cases f with
      | none =>
        rw [hpe] at he
        simp at he
      | some u =>
        simp [processEntries, hpe, flatTraces, ht]

theorem processEntries_panic (env : Env)
    (e : Except WalkErr (Str × Str × Bool))
    (rest : List (Except WalkErr (Str × Str × Bool)))
    (he : (processEntry env e).fst = none) :
    ∀ good : List (Except WalkErr (Str × Str × Bool)),
    (∀ x ∈ good, (processEntry env x).fst = some ()) →
    processEntries env (good ++ e :: rest) =
      (none, flatTraces env good ++ (processEntry env e).snd) := by
  intro good
  induction good with
  | nil =>
    intro _
    cases hpe : processEntry env e with
    | mk f tr =>
      cases f with
      | none => simp [processEntries, hpe, flatTraces]
      | some u =>
        rw [hpe] at he
        simp at he
  | cons g good' ih =>
    intro hg
    have hgg := hg g (List.mem_cons_self _ _)
    have ih' := ih (fun x hx => hg x (List.mem_cons_of_mem _ hx))
    cases hpg : processEntry env g with
    | mk f tr =>
      cases f with
      | none =>
        rw [hpg] at hgg
        simp at hgg
      | some u =>
        simp [processEntries, hpg, ih', flatTraces, List.append_assoc]

/-- When the session-level steps up to the entry loop succeed and no entry
panics, `upload` reaches the final `sftp.close().await?`, whose result alone
decides between `Ok` and a propagated error. -/
theorem upload_reaches_close (env : Env) (src dst : Option Str) (sp dstAbs : Str)
    (entries : List (Except WalkErr (Str × Str × Bool)))
    (h1 : env.canonicalizeLocal (src.getD dotPath) = some sp)
    (h2 : env.sftpOpen = .opened)
    (h3 : dstOk env dst)
    (h4 : env.canonicalizeRemote (dst.getD dotPath) = some dstAbs)
    (h5 : bijectPaths (calcPrefix sp) dstAbs (env.walk sp) = some entries)
    (h6 : ∀ e ∈ entries, (processEntry env e).fst = some ()) :
    upload env src dst =
      (match env.closeRes with
       | .error _ => (Outcome.errored, flatTraces env entries ++ [UEvent.sftpClose])
       | .ok _ => (Outcome.ok, flatTraces env entries ++ [UEvent.sftpClose])) := by
  have hpe := processEntries_all_ok env entries h6
  cases dst with
  | none =>
    simp only [Option.getD_none] at h4
    cases hc : env.closeRes with
    | error er => simp [upload, h1, h2, h4, h5, hpe, hc]
    | ok u => simp [upload, h1, h2, h4, h5, hpe, hc]
  | some d =>
    obtain ⟨a, ha, hd⟩ := h3
    simp only [Option.getD_some] at h4
    cases hc : env.closeRes with
    | error er => simp [upload, h1, h2, ha, hd, h4, h5, hpe, hc]
    | ok u => simp [upload, h1, h2, ha, hd, h4, h5, hpe, hc]

/-- A panicking entry (an `unwrap` failure) aborts the whole `upload` at that
entry: the remaining entries are never processed and no close is issued. -/
theorem upload_panics_at_entry (env : Env) (src dst : Option Str)
    (sp dstAbs : Str)
    (good rest : List (Except WalkErr (Str × Str × Bool)))
    (e : Except WalkErr (Str × Str × Bool))
    (h1 : env.canonicalizeLocal (src.getD dotPath) = some sp)
    (h2 : env.sftpOpen = .opened)
    (h3 : dstOk env dst)
    (h4 : env.canonicalizeRemote (dst.getD dotPath) = some dstAbs)
    (h5 : bijectPaths (calcPrefix sp) dstAbs (env.walk sp) = some (good ++ e :: rest))
    (h6 : ∀ x ∈ good, (processEntry env x).fst = some ())
    (h7 : (processEntry env e).fst = none) :
    upload env src dst =
      (.panicked, flatTraces env good ++ (processEntry env e).snd) := by
  have hpp := processEntries_panic env e rest h7 good h6
  cases dst with
  | none =>
    simp only [Option.getD_none] at h4
    simp [upload, h1, h2, h4, h5, hpp]
  | some d =>
    obtain ⟨a, ha, hd⟩ := h3
    simp only [Option.getD_some] at h4
    simp [upload, h1, h2, ha, hd, h4, h5, hpp]

/-- Claim C4, amended.  Walker entry errors, create-directory failures and
remote file open failures are per-entry and non-fatal: logged or swallowed,
the entry skipped, every remaining entry still processed, and `upload`
returns success (given the session-level steps succeed).  But a local file
open/read failure, a remote write failure, or a remote file close (shutdown)
failure panics, aborting the whole upload at that entry; and besides
source-canonicalization failure and a non-directory destination, an SFTP
sub-channel open failure and a final channel close failure are also
session-fatal. -/
theorem c4_amended (env : Env) (src dst : Option Str) (sp dstAbs : Str)
    (entries : List (Except WalkErr (Str × Str × Bool)))
    (h1 : env.canonicalizeLocal (src.getD dotPath) = some sp)
    (h2 : env.sftpOpen = .opened)
    (h3 : dstOk env dst)
    (h4 : env.canonicalizeRemote (dst.getD dotPath) = some dstAbs)
    (h5 : bijectPaths (calcPrefix sp) dstAbs (env.walk sp) = some entries)
    (h6 : ∀ e ∈ entries, (processEntry env e).fst = some ())
    (h7 : env.closeRes = .ok ()) :
    upload env src dst = (.ok, flatTraces env entries ++ [.sftpClose]) ∧
    (∀ w, processEntry env (.error w) = (some (), [.logErrorWalk])) ∧
    (∀ lp cb, processEntry env (.ok (lp, cb, true)) = (some (), [.mkdirReq cb])) ∧
    (∀ lp cb er, env.openFile cb = .error er →
      processEntry env (.ok (lp, cb, false)) =
        (some (), [.openReq cb, .logWarnOpenFailed cb])) ∧
    (∀ env2 : Env, ∀ lp cb, env2.openFile cb = .ok () → env2.readLocal lp = none →
      (processEntry env2 (.ok (lp, cb, false))).fst = none) ∧
    (∀ env2 : Env, ∀ lp cb buf er, env2.openFile cb = .ok () →
      env2.readLocal lp = some buf → env2.writeRemote cb buf = .error er →
      (processEntry env2 (.ok (lp, cb, false))).fst = none) ∧
    (∀ env2 : Env, ∀ lp cb buf er, env2.openFile cb = .ok () →
      env2.readLocal lp = some buf → env2.writeRemote cb buf = .ok () →
      env2.shutdownRes cb = .error er →
      (processEntry env2 (.ok (lp, cb, false))).fst = none) ∧
    (∀ env2 : Env, ∀ src2 dst2 sp2 dstAbs2 good rest e2,
      env2.canonicalizeLocal (src2.getD dotPath) = some sp2 →
      env2.sftpOpen = .opened → dstOk env2 dst2 →
      env2.canonicalizeRemote (dst2.getD dotPath) = some dstAbs2 →
      bijectPaths (calcPrefix sp2) dstAbs2 (env2.walk sp2) = some (good ++ e2 :: rest) →
      (∀ x ∈ good, (processEntry env2 x).fst = some ()) →
      (processEntry env2 e2).fst = none →
      upload env2 src2 dst2 =
        (.panicked, flatTraces env2 good ++ (processEntry env2 e2).snd)) ∧
    (∀ env2 : Env, ∀ src2 dst2, env2.canonicalizeLocal (src2.getD dotPath) = none →
      upload env2 src2 dst2 = (.errored, [])) ∧
    (∀ env2 : Env, ∀ src2 dst2 sp2,
      env2.canonicalizeLocal (src2.getD dotPath) = some sp2 →
      env2.sftpOpen = .openFailed → upload env2 src2 dst2 = (.errored, [])) ∧
    (∀ env2 : Env, ∀ src2 dst2 sp2,
      env2.canonicalizeLocal (src2.getD dotPath) = some sp2 →
      env2.sftpOpen = .openPanicked → upload env2 src2 dst2 = (.panicked, [])) ∧
    (∀ env2 : Env, ∀ src2 sp2 d a2,
      env2.canonicalizeLocal (src2.getD dotPath) = some sp2 →
      env2.sftpOpen = .opened → env2.metadataRes d = .ok a2 → a2.is_dir = false →
      upload env2 src2 (some d) = (.errored, [])) ∧
    (∀ env2 : Env, ∀ src2 dst2 sp2 dstAbs2 entries2 er,
      env2.canonicalizeLocal (src2.getD dotPath) = some sp2 →
      env2.sftpOpen = .opened → dstOk env2 dst2 →
      env2.canonicalizeRemote (dst2.getD dotPath) = some dstAbs2 →
      bijectPaths (calcPrefix sp2) dstAbs2 (env2.walk sp2) = some entries2 →
      (∀ x ∈ entries2, (processEntry env2 x).fst = some ()) →
      env2.closeRes = .error er →
      upload env2 src2 dst2 =
        (.errored, flatTraces env2 entries2 ++ [.sftpClose])) := by
  refine ⟨?_, ?_, ?_, ?_, ?_, ?_, ?_, ?_, ?_, ?_, ?_, ?_, ?_⟩
  · have h := upload_reaches_close env src dst sp dstAbs entries h1 h2 h3 h4 h5 h6
    simp only [h7] at h
    exact h
  · intro w
    rfl
  · intro lp cb
    rfl
  · intro lp cb er hopen
    simp [processEntry, hopen]
  · intro env2 lp cb hopen hread
    simp [processEntry, hopen, hread]
  · intro env2 lp cb buf er hopen hread hwrite
    simp [processEntry, hopen, hread, hwrite]
  · intro env2 lp cb buf er hopen hread hwrite hshut
    simp [processEntry, hopen, hread, hwrite, hshut]
  · intro env2 src2 dst2 sp2 dstAbs2 good rest e2 g1 g2 g3 g4 g5 g6 g7
    exact upload_panics_at_entry env2 src2 dst2 sp2 dstAbs2 good rest e2
      g1 g2 g3 g4 g5 g6 g7
  · intro env2 src2 dst2 hcanon
    simp [upload, hcanon]
  · intro env2 src2 dst2 sp2 g1 g2
    simp [upload, g1, g2]
  · intro env2 src2 dst2 sp2 g1 g2
    simp [upload, g1, g2]
  · intro env2 src2 sp2 d a2 g1 g2 g3 g4
    simp [upload, g1, g2, g3, g4]
  · intro env2 src2 dst2 sp2 dstAbs2 entries2 er g1 g2 g3 g4 g5 g6 g7
    have h := upload_reaches_close env2 src2 dst2 sp2 dstAbs2 entries2 g1 g2 g3 g4 g5 g6
    simp only [g7] at h
    exact h

/-- An upload environment whose walk yields a walker error, the source
directory, one file whose remote open fails, and one file that transfers. -/
def envC4 : Env :=
  { envBase with
    walk := fun _ =>
      [.error .ioErr,
       .ok ⟨"/h/s".data, some ⟨true⟩⟩,
       .ok ⟨"/h/s/a.txt".data, some ⟨false⟩⟩,
       .ok ⟨"/h/s/b.txt".data, some ⟨false⟩⟩],
    openFile := fun p => if p = "/r/s/a.txt".data then .error .permissionDenied
                         else .ok () }

/-- The `biject_paths` output for `envC4`. -/
def entriesC4 : List (Except WalkErr (Str × Str × Bool)) :=
  [.error .ioErr,
   .ok ("/h/s".data, "/r/s".data, true),
   .ok ("/h/s/a.txt".data, "/r/s/a.txt".data, false),
   .ok ("/h/s/b.txt".data, "/r/s/b.txt".data, false)]

theorem c4_witness :
    upload envC4 (some ("/h/s".data)) (some ("/r".data)) =
      (.ok, flatTraces envC4 entriesC4 ++ [.sftpClose]) :=
  (c4_amended envC4 (some ("/h/s".data)) (some ("/r".data)) ("/h/s".data)
    ("/r".data) entriesC4 rfl rfl ⟨⟨true⟩, rfl, rfl⟩ rfl (by rfl) (by decide) rfl).1

/-- An upload environment where one entry's local file read fails. -/
def envC4p : Env :=
  { envBase with
    walk := fun _ => [.ok ⟨"/h/s/f".data, some ⟨false⟩⟩],
    readLocal := fun _ => none }

/-- Claim C4 counterexample.  The claim says a local file read failure is
non-fatal (logged, entry skipped, success returned).  In the code
`File::open(local_pth).unwrap()` / `read_to_end(...).unwrap()` panic:
`upload` aborts the process instead of returning success. -/
theorem c4_cex :
    envC4p.readLocal ("/h/s/f".data) = none ∧
    upload envC4p (some ("/h/s".data)) (some ("/r".data)) =
      (.panicked, [.openReq ("/r/s/f".data)]) := by
  exact ⟨rfl, by decide⟩

/-- Claim C5, amended.  With a destination supplied, a remote metadata lookup
that reports the destination exists but is not a directory aborts with an
error; but a metadata lookup failure of any kind — "not found" included —
does not abort: the error is logged and `upload` returns success immediately,
transferring nothing. -/
theorem c5_amended (env : Env) (src : Option Str) (d sp : Str)
    (h1 : env.canonicalizeLocal (src.getD dotPath) = some sp)
    (h2 : env.sftpOpen = .opened) :
    (∀ er, env.metadataRes d = .error er →
      upload env src (some d) = (.ok, [.logErrorMetadata])) ∧
    (∀ a, env.metadataRes d = .ok a → a.is_dir = false →
      upload env src (some d) = (.errored, [])) := by
  constructor
  · intro er hm
    simp [upload, h1, h2, hm]
  · intro a hm hd
    simp [upload, h1, h2, hm, hd]

/-- An upload environment whose remote metadata lookup fails with a
permission error (not "not found"). -/
def envC5 : Env := { envBase with metadataRes := fun _ => .error .permissionDenied }

/-- Claim C5 counterexample.  The claim says a metadata lookup failure other
than "not found" aborts with an error.  In the code the `Err` arm logs and
does `return Ok(())`: `upload` reports success. -/
theorem c5_cex :
    envC5.metadataRes ("/r".data) = .error .permissionDenied ∧
    upload envC5 (some ("/h/s".data)) (some ("/r".data)) = (.ok, [.logErrorMetadata]) ∧
    (upload envC5 (some ("/h/s".data)) (some ("/r".data))).fst ≠ .errored := by
  refine ⟨rfl, by decide, by decide⟩

/-- An upload environment whose destination exists but is not a directory. -/
def envC5w : Env := { envBase with metadataRes := fun _ => .ok ⟨false⟩ }

theorem c5_witness :
    upload envC5w (some ("/h/s".data)) (some ("/r".data)) = (.errored, []) :=
  (c5_amended envC5w (some ("/h/s".data)) ("/r".data) ("/h/s".data) rfl rfl).2
    ⟨false⟩ rfl rfl

/-- Claim C9, amended.  For every directory entry `upload` issues exactly one
remote create-directory request and discards its result entirely: every
create-directory failure — already-exists or otherwise — is silently
swallowed with nothing logged, the loop continues with the remaining entries,
and the whole upload result is independent of the create-directory
responses. -/
theorem c9_amended (env : Env) (cd : Str → Except SftpErrKind Unit)
    (src dst : Option Str) (lp cb : Str)
    (rest : List (Except WalkErr (Str × Str × Bool))) :
    upload { env with createDir := cd } src dst = upload env src dst ∧
    processEntry env (.ok (lp, cb, true)) = (some (), [.mkdirReq cb]) ∧
    processEntries env (.ok (lp, cb, true) :: rest) =
      ((processEntries env rest).fst, .mkdirReq cb :: (processEntries env rest).snd) := by
  have hpe : ∀ e, processEntry { env with createDir := cd } e = processEntry env e := by
    intro e
    cases e with
    | error w => rfl
    | ok t =>
      obtain ⟨lp', cb', isDir'⟩ := t
      cases isDir' <;> rfl
  have hpes : ∀ l, processEntries { env with createDir := cd } l = processEntries env l := by
    intro l
    induction l with
    | nil => rfl
    | cons e r ih => simp only [processEntries, hpe, ih]
  refine ⟨?_, rfl, ?_⟩
  · simp only [upload, hpes]
  · simp [processEntries, processEntry]

/-- An upload environment whose create-directory request fails with a
permission error (not "already exists"), over a directory and a file. -/
def envC9 : Env :=
  { envBase with
    createDir := fun _ => .error .permissionDenied,
    walk := fun _ => [.ok ⟨"/h/s".data, some ⟨true⟩⟩,
                      .ok ⟨"/h/s/a.txt".data, some ⟨false⟩⟩] }

/-- Claim C9 counterexample.  The claim says a create-directory failure other
than "already exists" is logged.  In the code the result is discarded with
`let _ = ...`: here the request fails with a permission error, the sync
continues and succeeds, and no log event of any kind is emitted. -/
theorem c9_cex :
    envC9.createDir ("/r/s".data) = .error .permissionDenied ∧
    upload envC9 (some ("/h/s".data)) (some ("/r".data)) =
      (.ok, [.mkdirReq ("/r/s".data), .openReq ("/r/s/a.txt".data),
             .writeReq ("/r/s/a.txt".data) [7], .syncReq ("/r/s/a.txt".data),
             .shutdownReq ("/r/s/a.txt".data), .sftpClose]) ∧
    (upload envC9 (some ("/h/s".data)) (some ("/r".data))).snd.filter isLogEvent = [] := by
  refine ⟨rfl, by decide, by decide⟩
